import Mathlib

/-!
# Verification of the LTUA comparative-translation pipeline

Shallow embedding of the core of `translate_script.py` (and the
`sanitize_filename` import site shared with `app.py`): source dispatch,
per-unit Google translation with retries, batch chunking, the OpenAI
numbered-list batch translator with its line-oriented response parser,
the comparison-table builder, and the output-filename computation.

Python strings are modelled as `List Char` (`PyStr`); the fallible
remote backends are modelled as explicit parameters (`Option` results
for calls that may raise); `Except` models raised exceptions that
escape a function.
-/

namespace LTUA

/-- A Python string, as its list of characters. -/
abbrev PyStr := List Char

/-- `str.strip()`: drop whitespace from both ends.
(Lean's `Char.isWhitespace` covers `' '`, `'\t'`, `'\r'`, `'\n'`, the
whitespace occurring in the texts this program manipulates.) -/
def pyStrip (s : PyStr) : PyStr :=
  ((s.dropWhile Char.isWhitespace).reverse.dropWhile Char.isWhitespace).reverse

/-- `str.splitlines()`, modelled as splitting on `'\n'`.  (Python also
treats `'\r'` and drops a final empty piece; both differences only
produce extra empty lines, which the response parser skips.) -/
def splitlines (s : PyStr) : List PyStr := s.splitOn '\n'

/-- `re.match(r"^(\d+)\)\s*(.*)$", line_stripped)`, returning the text
captured by the second group: one or more leading digits, a closing
parenthesis, optional whitespace, then the rest of the line. -/
def matchNumbered (s : PyStr) : Option PyStr :=
  match s.span Char.isDigit with
  | ([], _) => none
  | (_ :: _, ')' :: tail) => some (tail.dropWhile Char.isWhitespace)
  | (_ :: _, _) => none

/-- The per-unit failure sentinel returned by `translate_text_google`. -/
def googleSentinel : PyStr := "Помилка перекладу (Google)".data

/-- The whole-batch failure sentinel returned by `translate_chunk_openai`
when the backend call raises. -/
def openaiSentinel : PyStr := "Помилка перекладу (OpenAI)".data

/-- The per-slot padding sentinel used when fewer translations were
parsed than units submitted. -/
def parseFailSentinel : PyStr := "Помилка: не вдалося розпарсити відповідь GPT".data

/-- The `for line in lines` loop of `translate_chunk_openai`
(translate_script.py lines 130-146).  State: the accumulated
`chunk_result` and the pending `current_translation`.  A numbered line
flushes the pending text (if non-empty, i.e. truthy) and starts a new
one from the captured group; a non-matching non-empty line is appended
to the pending text after a space; empty lines are skipped; the pending
text is flushed (stripped) at end of input.  (The code also counts
matches in `found_count`, which it never reads; the count is omitted.) -/
def parseLoop : List PyStr → List PyStr → PyStr → List PyStr
  | [], acc, cur => if cur ≠ [] then acc ++ [pyStrip cur] else acc
  | line :: rest, acc, cur =>
    let ls := pyStrip line
    if ls = [] then parseLoop rest acc cur
    else
      match matchNumbered ls with
      | some captured =>
          parseLoop rest (if cur ≠ [] then acc ++ [pyStrip cur] else acc) captured
      | none => parseLoop rest acc (cur ++ ' ' :: ls)

/-- `f"{i}) {para}"`: one numbered line of the batch prompt / of a
well-formed backend response. -/
def numberLine (i : Nat) (t : PyStr) : PyStr :=
  (Nat.repr i).data ++ ')' :: ' ' :: t

/-- The numbered lines for a unit list, numbering from `i`. -/
def numberLines (i : Nat) : List PyStr → List PyStr
  | [] => []
  | t :: ts => numberLine i t :: numberLines (i + 1) ts

/-- `prompt_text` of `translate_chunk_openai` (lines 94-96): every unit
becomes `"{i}) {para}\n"`, 1-based, concatenated. -/
def prompt_text (chunk : List PyStr) : PyStr :=
  (numberLines 1 chunk).foldr (fun l r => l ++ '\n' :: r) []

/-- `sep.join(parts)`: the parts joined by a single separator
character. -/
def joinWith (sep : Char) : List PyStr → PyStr
  | [] => []
  | [l] => l
  | l :: l' :: ls => l ++ sep :: joinWith sep (l' :: ls)

/-- A well-formed numbered response: the numbered lines joined by
newlines, numbering from 1 — the shape the prompt asks the backend to
return. -/
def numberedResponse (ts : List PyStr) : PyStr :=
  joinWith '\n' (numberLines 1 ts)

/-- The text accumulated by the parser's continuation rule over a run
of lines none of which is numbered: each non-empty stripped line is
appended after a single space. -/
def glueLines (lines : List PyStr) : PyStr :=
  lines.foldr (fun l r => if (pyStrip l).isEmpty then r else ' ' :: pyStrip l ++ r) []

/-- The same accumulation, phrased over the already-stripped non-empty
fragments. -/
def glueC (cs : List PyStr) : PyStr :=
  cs.foldr (fun s r => ' ' :: s ++ r) []

/-- `translate_chunk_openai` (translate_script.py lines 85-152).  The
backend call is modelled by `backend : Option PyStr`: `none` when
`openai.ChatCompletion.create` (or reading the response) raises, and
`some raw` for a returned message content.  An empty chunk returns `[]`
before the backend is contacted; a raised backend call yields a list of
`openaiSentinel`s; otherwise the stripped response is parsed line by
line, padded with `parseFailSentinel` up to the chunk length, and
truncated to the chunk length. -/
def translate_chunk_openai (chunk : List PyStr) (backend : Option PyStr) : List PyStr :=
  if chunk = [] then []
  else
    match backend with
    | none => List.replicate chunk.length openaiSentinel
    | some raw =>
      let result_text := pyStrip raw
      let parsed := parseLoop (splitlines result_text) [] []
      (parsed ++ List.replicate (chunk.length - parsed.length) parseFailSentinel).take
        chunk.length

/-- The non-empty stripped lines of the (stripped) raw response — the
fragments the parser sees.  When none of them is numbered, the parser
accumulates exactly these, separated by single spaces. -/
def contentLines (raw : PyStr) : List PyStr :=
  ((splitlines (pyStrip raw)).map pyStrip).filter fun l => !l.isEmpty

/-- `chunk_paragraphs` (lines 78-83): `paragraphs[i : i + chunk_size]`
for `i = 0, chunk_size, 2*chunk_size, ...`.  (Python raises on step 0;
the model returns `[]` there, and every property assumes a positive
chunk size.) -/
def chunk_paragraphs {α : Type} : List α → Nat → List (List α)
  | [], _ => []
  | _ :: _, 0 => []
  | a :: l, B + 1 =>
      (a :: l).take (B + 1) :: chunk_paragraphs ((a :: l).drop (B + 1)) (B + 1)
  termination_by ps _ => ps.length
  decreasing_by simp [List.length_drop]; omega

/-- The retry loop of `translate_text_google` (lines 65-72).
`backend k` is the outcome of attempt `k` (`none` when
`GoogleTranslator(...).translate` raises).  `attempt` is the index of
the next attempt, `remaining` the number of attempts left; when the
attempts are exhausted the fixed sentinel is returned.  (The
`time.sleep(2**attempt)` backoff has no effect on the returned value
and is not modelled.) -/
def translateGoogleGo (backend : Nat → Option PyStr) : Nat → Nat → PyStr
  | _, 0 => googleSentinel
  | attempt, remaining + 1 =>
    match backend attempt with
    | some t => t
    | none => translateGoogleGo backend (attempt + 1) remaining

/-- `translate_text_google(text, max_retries=3)`, abstracted over the
backend outcomes of its attempts. -/
def translate_text_google (backend : Nat → Option PyStr) (max_retries : Nat := 3) : PyStr :=
  translateGoogleGo backend 0 max_retries

/-- The Google phase of `process_document` (lines 358-363): one
`translate_text_google` submission per paragraph index, each result
written to its own pre-sized slot.  `backends i` is the attempt-outcome
function for paragraph `i`. -/
def googlePhase (backends : Nat → Nat → Option PyStr) (n : Nat) : List PyStr :=
  (List.range n).map fun i => translate_text_google (backends i)

/-- `str.startswith(p)`, on the underlying character lists. -/
def pyStartsWith (s p : String) : Bool := p.data.isPrefixOf s.data

/-- `str.endswith(p)`, on the underlying character lists. -/
def pyEndsWith (s p : String) : Bool := p.data.isSuffixOf s.data

/-- Which extractor `extract_text` dispatches to. -/
inductive SourceKind where
  | web
  | pdf
  | docx
  deriving DecidableEq

/-- The dispatch of `extract_text` (lines 29-41).  The three extractors
perform I/O; the model returns which one is selected, or the
`ValueError("Потрібен PDF/DOCX або URL.")` raised when the source shape
is unrecognized. -/
def extract_text (source : String) : Except String SourceKind :=
  if pyStartsWith source "http" then Except.ok SourceKind.web
  else if pyEndsWith source ".pdf" then Except.ok SourceKind.pdf
  else if pyEndsWith source ".docx" then Except.ok SourceKind.docx
  else Except.error "Потрібен PDF/DOCX або URL."

/-- Spec-side predicate (§6): "a string beginning with an HTTP(S)
scheme". -/
def beginsWithHttpScheme (s : String) : Bool :=
  pyStartsWith s "http://" || pyStartsWith s "https://"

/-- One data row of the comparison table: the displayed number
(`str(i + 1)`), the source paragraph, and the two backend results. -/
structure TableRow where
  num : PyStr
  source : PyStr
  google : PyStr
  openai : PyStr
  deriving DecidableEq

/-- The data rows added by `create_translation_table` (lines 187-192 /
266-271): `enumerate(zip(paragraphs, google_trans, openai_trans))`,
row `i` getting display number `str(i + 1)` and the three texts at
position `i`.  Header row, shading, fonts and column widths are
styling, not data. -/
def create_translation_table (paragraphs google_trans openai_trans : List PyStr) :
    List TableRow :=
  List.mapIdx (fun i x => ⟨(Nat.repr (i + 1)).data, x.1, x.2.1, x.2.2⟩)
    (paragraphs.zip (google_trans.zip openai_trans))

/-- The names bound at the top level of `translate_script.py`
(its imports and `def`s) — the module globals a call inside it can
resolve against. -/
def translateScriptGlobals : List String :=
  ["logging", "os", "re", "time", "requests", "fitz", "docx", "openai",
   "Document", "WD_ALIGN_PARAGRAPH", "WD_ORIENT", "Pt", "Inches",
   "OxmlElement", "qn", "datetime", "ThreadPoolExecutor", "as_completed",
   "tqdm", "BeautifulSoup", "GoogleTranslator",
   "extract_text", "extract_text_from_html", "extract_text_from_pdf",
   "extract_text_from_docx", "translate_text_google", "chunk_paragraphs",
   "translate_chunk_openai", "create_shading_element",
   "create_translation_table", "setup_document_orientation", "add_title",
   "save_translation_document", "process_document", "source_path"]

/-- The names `def`-ined at the top level of `app.py` (its helper
functions; the rest of the file is straight-line UI code).  `app.py`
itself only *imports* `sanitize_filename` from `translate_script`. -/
def appGlobals : List String :=
  ["st", "os", "logging", "ThreadPoolExecutor", "as_completed", "datetime",
   "Document", "re", "extract_text", "translate_text_google",
   "chunk_paragraphs", "translate_chunk_openai", "create_translation_table",
   "setup_document_orientation", "add_title", "TEMP_DIR",
   "save_uploaded_file", "check_password"]

/-- A raised Python exception relevant to the output path. -/
inductive PyError where
  | nameError (missing : String)
  deriving DecidableEq

/-- `os.path.basename`: the part after the last `'/'`. -/
def pyBasename (p : String) : String :=
  ⟨(p.data.reverse.takeWhile (· ≠ '/')).reverse⟩

/-- The first component of `os.path.splitext`: the name up to its last
dot, except that dots leading the whole name do not split. -/
def pySplitextBase (name : String) : String :=
  let lead := name.data.takeWhile (· = '.')
  let rest := name.data.drop lead.length
  if rest.contains '.' then
    ⟨lead ++ ((rest.reverse.dropWhile (· ≠ '.')).drop 1).reverse⟩
  else name

/-- A call to the free name `sanitize_filename` inside
`translate_script.py`: Python resolves it in the module globals, and —
the name being bound nowhere in that module — raises
`NameError("name 'sanitize_filename' is not defined")`.  Were the name
bound, the model could not know its value, but the guard below is
decidably false, so the `ok` branch is unreachable at this call site. -/
def sanitize_filename_call (arg : String) : Except PyError String :=
  if translateScriptGlobals.contains "sanitize_filename" then Except.ok arg
  else Except.error (PyError.nameError "sanitize_filename")

/-- The output-path computation of `save_translation_document`
(lines 317-340), the part of its success path that decides the claim:
URL sources use the fixed base name, local paths sanitize the
extension-stripped basename; the result is saved under `output/`.
Building and saving the document itself is I/O with no bearing on the
raised error.  `dateStr` stands for `datetime.now().strftime("%Y-%m-%d")`. -/
def save_translation_document (source : String) (dateStr : String) :
    Except PyError String :=
  (if pyStartsWith source "http" then Except.ok "Document From Internet"
   else sanitize_filename_call (pySplitextBase (pyBasename source))).map
    fun base_name => "output/" ++ base_name ++ " (Translated by LTUA " ++ dateStr ++ ").docx"

/-! ## Theorems -/

/-- **C9.**  For the empty batch, `translate_chunk_openai` returns the
empty list immediately; the backend parameter is irrelevant (the call
is never made), so the length postcondition also holds at length
zero. -/
theorem translate_chunk_openai_empty (backend : Option PyStr) :
    translate_chunk_openai [] backend = [] := rfl

/-- **C1.**  For every non-empty chunk and every backend outcome
(raised call, or any well-formed or malformed response text), the
result of `translate_chunk_openai` has exactly the length of the
chunk: missing entries are padded with the parse-failure sentinel and
surplus entries are truncated. -/
theorem translate_chunk_openai_length (chunk : List PyStr) (backend : Option PyStr)
    (h : chunk ≠ []) :
    (translate_chunk_openai chunk backend).length = chunk.length := by
  unfold translate_chunk_openai
  rw [if_neg h]
  cases backend with
  | none => simp
  | some raw =>
    simp only [List.length_take, List.length_append, List.length_replicate]
    omega

/-- Witness for C1 at a concrete chunk and a malformed response. -/
theorem translate_chunk_openai_length_witness :
    (translate_chunk_openai ["Hello.".data, "World.".data]
        (some "complete garbage\nwith no numbering".data)).length = 2 :=
  translate_chunk_openai_length _ _ (by decide)

/-- **C4.**  When the backend call raises, `translate_chunk_openai`
returns (it does not propagate) a list of the batch's length whose
every element is the batch-failure sentinel, and that sentinel differs
from the per-unit (Google) failure sentinel. -/
theorem translate_chunk_openai_backend_failure (chunk : List PyStr) :
    translate_chunk_openai chunk none = List.replicate chunk.length openaiSentinel
    ∧ openaiSentinel ≠ googleSentinel := by
  refine ⟨?_, by decide⟩
  unfold translate_chunk_openai
  by_cases h : chunk = []
  · subst h; rfl
  · rw [if_neg h]

/-- **C5.**  For a positive batch size, `chunk_paragraphs` yields
contiguous slices in order: their concatenation reconstructs the input
(hence total length is preserved), every chunk has length at most `B`,
and every chunk except possibly the last has length exactly `B`. -/
theorem chunk_paragraphs_partition {α : Type} (ps : List α) (B : Nat) (hB : 0 < B) :
    (chunk_paragraphs ps B).flatten = ps
    ∧ (∀ c ∈ chunk_paragraphs ps B, c.length ≤ B)
    ∧ (∀ c ∈ (chunk_paragraphs ps B).dropLast, c.length = B) := by
  revert hB
  induction ps, B using chunk_paragraphs.induct with
  | case1 B =>
    intro _
    refine ⟨?_, ?_, ?_⟩ <;> simp [chunk_paragraphs]
  | case2 a l =>
    intro h
    exact absurd h (by omega)
  | case3 a l B ih =>
    intro _
    obtain ⟨ih1, ih2, ih3⟩ := ih (by omega)
    have heq : chunk_paragraphs (a :: l) (B + 1)
        = (a :: l).take (B + 1) :: chunk_paragraphs ((a :: l).drop (B + 1)) (B + 1) := by
      simp [chunk_paragraphs]
    rw [heq]
    refine ⟨?_, ?_, ?_⟩
    · simp only [List.flatten_cons, ih1, List.take_append_drop]
    · intro c hc
      rcases List.mem_cons.mp hc with rfl | hc'
      · simp only [List.length_take]
        omega
      · exact ih2 c hc'
    · cases hrest : chunk_paragraphs ((a :: l).drop (B + 1)) (B + 1) with
      | nil => simp
      | cons c cs =>
        have hdrop : (a :: l).drop (B + 1) ≠ [] := by
          intro h0
          rw [h0] at hrest
          simp [chunk_paragraphs] at hrest
        have hlen : B + 1 ≤ (a :: l).length := by
          rcases Nat.lt_or_ge (a :: l).length (B + 1) with hlt | hge
          · exact absurd (List.drop_eq_nil_iff.mpr (Nat.le_of_lt hlt)) hdrop
          · exact hge
        rw [hrest] at ih3
        intro d hd
        rw [List.dropLast_cons₂] at hd
        rcases List.mem_cons.mp hd with rfl | hd'
        · simp only [List.length_take]
          omega
        · exact ih3 d hd'

/-- Witness for C5 at seven paragraphs and batch size 3. -/
theorem chunk_paragraphs_partition_witness :
    (chunk_paragraphs [10, 20, 30, 40, 50, 60, 70] 3).flatten = [10, 20, 30, 40, 50, 60, 70]
    ∧ (∀ c ∈ chunk_paragraphs [10, 20, 30, 40, 50, 60, 70] 3, c.length ≤ 3)
    ∧ (∀ c ∈ (chunk_paragraphs [10, 20, 30, 40, 50, 60, 70] 3).dropLast, c.length = 3) :=
  chunk_paragraphs_partition [10, 20, 30, 40, 50, 60, 70] 3 (by omega)

/-- If every attempt in the window `[a, a + r)` raises, the retry loop
returns the Google failure sentinel. -/
theorem translateGoogleGo_all_fail (backend : Nat → Option PyStr) :
    ∀ r a, (∀ k, a ≤ k → k < a + r → backend k = none) →
      translateGoogleGo backend a r = googleSentinel := by
  intro r
  induction r with
  | zero => intro a _; rfl
  | succ r ih =>
    intro a h
    have h0 : backend a = none := h a le_rfl (by omega)
    simp only [translateGoogleGo, h0]
    exact ih (a + 1) fun k hk1 hk2 => h k (by omega) (by omega)

/-- If attempt `a + k` is the first to succeed inside the window, its
result is returned. -/
theorem translateGoogleGo_first_success (backend : Nat → Option PyStr) :
    ∀ k r a t, k < r → (∀ j, a ≤ j → j < a + k → backend j = none) →
      backend (a + k) = some t → translateGoogleGo backend a r = t := by
  intro k
  induction k with
  | zero =>
    intro r a t hr h hs
    cases r with
    | zero => omega
    | succ r => simp only [translateGoogleGo, show backend a = some t by simpa using hs]
  | succ k ih =>
    intro r a t hr h hs
    cases r with
    | zero => omega
    | succ r =>
      have h0 : backend a = none := h a le_rfl (by omega)
      simp only [translateGoogleGo, h0]
      refine ih r (a + 1) t (by omega) (fun j hj1 hj2 => h j (by omega) (by omega)) ?_
      rw [show a + 1 + k = a + (k + 1) by omega]
      exact hs

/-- The retry loop inspects only the attempts in its window. -/
theorem translateGoogleGo_congr (b b' : Nat → Option PyStr) :
    ∀ r a, (∀ k, a ≤ k → k < a + r → b k = b' k) →
      translateGoogleGo b a r = translateGoogleGo b' a r := by
  intro r
  induction r with
  | zero => intro a _; rfl
  | succ r ih =>
    intro a h
    have h0 : b a = b' a := h a le_rfl (by omega)
    simp only [translateGoogleGo, h0]
    cases b' a with
    | some t => rfl
    | none => exact ih (a + 1) fun k hk1 hk2 => h k (by omega) (by omega)

/-- **C6.**  The per-unit translator never raises: with `N` allowed
attempts it (1) returns the fixed failure sentinel when every attempt
raises, (2) returns the backend's result of the first successful
attempt otherwise, (3) consults at most the first `N` attempts, and
(4) in the per-paragraph phase each paragraph's result slot depends
only on that paragraph's own backend behaviour, so one unit's failure
leaves every other slot unchanged. -/
theorem translate_text_google_contract (N : Nat) :
    (∀ backend, (∀ k, k < N → backend k = none) →
        translate_text_google backend N = googleSentinel)
    ∧ (∀ backend k t, k < N → (∀ j, j < k → backend j = none) → backend k = some t →
        translate_text_google backend N = t)
    ∧ (∀ b b', (∀ k, k < N → b k = b' k) →
        translate_text_google b N = translate_text_google b' N)
    ∧ (∀ (bs bs' : Nat → Nat → Option PyStr) (n i : Nat), bs i = bs' i →
        (googlePhase bs n)[i]? = (googlePhase bs' n)[i]?) := by
  refine ⟨?_, ?_, ?_, ?_⟩
  · intro backend h
    exact translateGoogleGo_all_fail backend N 0 fun k _ hk => h k (by omega)
  · intro backend k t hk h hs
    exact translateGoogleGo_first_success backend k N 0 t hk
      (fun j _ hj => h j (by omega)) (by simpa using hs)
  · intro b b' h
    exact translateGoogleGo_congr b b' N 0 fun k _ hk => h k (by omega)
  · intro bs bs' n i h
    simp only [googlePhase, List.getElem?_map]
    cases hr : (List.range n)[i]? with
    | none => rfl
    | some j =>
      have hin : i < n := by
        have := (List.getElem?_eq_some.mp hr).1
        simpa using this
      rw [List.getElem?_range hin] at hr
      cases hr
      simp [translate_text_google, h]

/-- Witness for C6: a backend raising on all three attempts yields the
sentinel. -/
theorem translate_text_google_contract_witness :
    translate_text_google (fun _ => none) 3 = googleSentinel :=
  (translate_text_google_contract 3).1 (fun _ => none) fun _ _ => rfl

/-- **C7, counterexample.**  The source `"httpx.pdf"` does not begin
with an HTTP(S) scheme and ends with `.pdf`, so the claim requires the
PDF parser; the code tests only the literal prefix `"http"` and
dispatches to the web extractor. -/
theorem extract_text_prefix_counterexample :
    extract_text "httpx.pdf" = Except.ok SourceKind.web
    ∧ beginsWithHttpScheme "httpx.pdf" = false
    ∧ pyEndsWith "httpx.pdf" ".pdf" = true :=
  ⟨rfl, by decide, by decide⟩

/-- **C7, amended.**  `extract_text` selects the web extractor exactly
when the source starts with the literal prefix `"http"` (scheme or
not); otherwise the PDF parser exactly on suffix `.pdf`, otherwise the
word-processor parser exactly on suffix `.docx`, and raises the
unsupported-source `ValueError` for every other shape. -/
theorem extract_text_dispatch (source : String) :
    (extract_text source = Except.ok SourceKind.web ↔ pyStartsWith source "http" = true)
    ∧ (extract_text source = Except.ok SourceKind.pdf ↔
        (pyStartsWith source "http" = false ∧ pyEndsWith source ".pdf" = true))
    ∧ (extract_text source = Except.ok SourceKind.docx ↔
        (pyStartsWith source "http" = false ∧ pyEndsWith source ".pdf" = false
          ∧ pyEndsWith source ".docx" = true))
    ∧ (extract_text source = Except.error "Потрібен PDF/DOCX або URL." ↔
        (pyStartsWith source "http" = false ∧ pyEndsWith source ".pdf" = false
          ∧ pyEndsWith source ".docx" = false)) := by
  unfold extract_text
  by_cases h1 : pyStartsWith source "http" = true <;>
    by_cases h2 : pyEndsWith source ".pdf" = true <;>
      by_cases h3 : pyEndsWith source ".docx" = true <;>
        simp_all

/-- **C8.**  The table builder is a pure positional zip: given result
sequences pre-aligned to the paragraphs, it emits one data row per
paragraph in extraction order, row `i` (0-based) carrying the display
number `str(i + 1)`, the source paragraph `i`, and the two backend
results at position `i` — whatever those cells contain. -/
theorem create_translation_table_rows (paragraphs google_trans openai_trans : List PyStr)
    (hg : google_trans.length = paragraphs.length)
    (ho : openai_trans.length = paragraphs.length) :
    (create_translation_table paragraphs google_trans openai_trans).length
        = paragraphs.length
    ∧ ∀ i, i < paragraphs.length →
        ∃ p g o, paragraphs[i]? = some p ∧ google_trans[i]? = some g
          ∧ openai_trans[i]? = some o
          ∧ (create_translation_table paragraphs google_trans openai_trans)[i]? =
              some ⟨(Nat.repr (i + 1)).data, p, g, o⟩ := by
  refine ⟨?_, ?_⟩
  · simp [create_translation_table, hg, ho]
  · intro i hi
    have hig : i < google_trans.length := by omega
    have hio : i < openai_trans.length := by omega
    have hiz : i < (paragraphs.zip (google_trans.zip openai_trans)).length := by
      simp only [List.length_zip]
      omega
    have hit : i < (create_translation_table paragraphs google_trans openai_trans).length := by
      simpa [create_translation_table] using hiz
    refine ⟨paragraphs[i], google_trans[i], openai_trans[i],
      List.getElem?_eq_getElem hi, List.getElem?_eq_getElem hig,
      List.getElem?_eq_getElem hio, ?_⟩
    rw [List.getElem?_eq_getElem hit]
    simp [create_translation_table, List.getElem_mapIdx, List.getElem_zip]

/-- Witness for C8 at a concrete two-paragraph table containing one
failure sentinel. -/
theorem create_translation_table_rows_witness :
    (create_translation_table ["a".data, "b".data] [googleSentinel, "c".data]
        ["d".data, "e".data]).length = 2 :=
  (create_translation_table_rows ["a".data, "b".data] [googleSentinel, "c".data]
    ["d".data, "e".data] rfl rfl).1

/-- **C10.**  `sanitize_filename` is bound nowhere in the codebase
(neither module's top level defines it), so for every non-URL source
the output-filename computation of `save_translation_document` — hence
the success path of `process_document` — raises `NameError`; URL
sources take the fixed base name and avoid the call. -/
theorem save_translation_document_missing_sanitize :
    (∀ source dateStr : String, pyStartsWith source "http" = false →
        save_translation_document source dateStr =
          Except.error (PyError.nameError "sanitize_filename"))
    ∧ translateScriptGlobals.contains "sanitize_filename" = false
    ∧ appGlobals.contains "sanitize_filename" = false
    ∧ (∀ source dateStr : String, pyStartsWith source "http" = true →
        ∃ p, save_translation_document source dateStr = Except.ok p) := by
  have hc : translateScriptGlobals.contains "sanitize_filename" = false := by rfl
  have hm : "sanitize_filename" ∉ translateScriptGlobals := by decide
  refine ⟨?_, hc, by rfl, ?_⟩
  · intro source dateStr h
    simp [save_translation_document, h, sanitize_filename_call, hm, Except.map]
  · intro source dateStr h
    refine ⟨"output/Document From Internet (Translated by LTUA " ++ dateStr ++ ").docx", ?_⟩
    simp [save_translation_document, h, Except.map]

/-- Witness for C10: a local `.docx` source raises the `NameError`; a
URL source does not. -/
theorem save_translation_document_missing_sanitize_witness :
    save_translation_document "contract.docx" "2026-10-12" =
      Except.error (PyError.nameError "sanitize_filename")
    ∧ ∃ p, save_translation_document "http://example.com/page" "2026-10-12" =
        Except.ok p :=
  ⟨save_translation_document_missing_sanitize.1 "contract.docx" "2026-10-12" (by decide),
   save_translation_document_missing_sanitize.2.2.2 "http://example.com/page" "2026-10-12"
     (by decide)⟩

/-! ### Decimal digits of `Nat.repr` -/

/-- The ten decimal digit characters are digits and not whitespace. -/
theorem digitChar_good :
    ∀ m < 10, (Nat.digitChar m).isDigit = true ∧ (Nat.digitChar m).isWhitespace = false := by
  decide

/-- Every character `Nat.toDigitsCore` emits on top of a digit
accumulator is a decimal digit (hence not whitespace). -/
theorem toDigitsCore_mem (fuel : Nat) :
    ∀ (n : Nat) (ds : List Char),
      (∀ c ∈ ds, c.isDigit = true ∧ c.isWhitespace = false) →
      ∀ c ∈ Nat.toDigitsCore 10 fuel n ds, c.isDigit = true ∧ c.isWhitespace = false := by
  induction fuel with
  | zero =>
    intro n ds h c hc
    simpa [Nat.toDigitsCore] using h c hc
  | succ fuel ih =>
    intro n ds h c hc
    have hd : (Nat.digitChar (n % 10)).isDigit = true
        ∧ (Nat.digitChar (n % 10)).isWhitespace = false :=
      digitChar_good (n % 10) (Nat.mod_lt n (by omega))
    have hds : ∀ x ∈ Nat.digitChar (n % 10) :: ds,
        x.isDigit = true ∧ x.isWhitespace = false := by
      intro x hx
      rcases List.mem_cons.mp hx with rfl | hx'
      · exact hd
      · exact h x hx'
    simp only [Nat.toDigitsCore] at hc
    split at hc
    · exact hds c hc
    · exact ih (n / 10) (Nat.digitChar (n % 10) :: ds) hds c hc

/-- `Nat.toDigitsCore` only prepends to its accumulator. -/
theorem toDigitsCore_append (fuel : Nat) :
    ∀ (n : Nat) (ds : List Char),
      ∃ pre, Nat.toDigitsCore 10 fuel n ds = pre ++ ds := by
  induction fuel with
  | zero => exact fun n ds => ⟨[], by simp [Nat.toDigitsCore]⟩
  | succ fuel ih =>
    intro n ds
    simp only [Nat.toDigitsCore]
    split
    · exact ⟨[Nat.digitChar (n % 10)], rfl⟩
    · obtain ⟨pre, hpre⟩ := ih (n / 10) (Nat.digitChar (n % 10) :: ds)
      exact ⟨pre ++ [Nat.digitChar (n % 10)], by simp [hpre]⟩

/-- The decimal rendering of a natural number is a non-empty string of
digit characters, none of which is whitespace. -/
theorem natRepr_spec (n : Nat) :
    (Nat.repr n).data ≠ []
    ∧ ∀ c ∈ (Nat.repr n).data, c.isDigit = true ∧ c.isWhitespace = false := by
  constructor
  · show Nat.toDigitsCore 10 (n + 1) n [] ≠ []
    simp only [Nat.toDigitsCore]
    split
    · exact List.cons_ne_nil _ _
    · obtain ⟨pre, hpre⟩ := toDigitsCore_append n (n / 10) [Nat.digitChar (n % 10)]
      rw [hpre]
      simp
  · exact toDigitsCore_mem (n + 1) n [] (by simp)

/-! ### Boundary characters of `pyStrip` -/

/-- The first element surviving `dropWhile` fails the predicate. -/
theorem dropWhile_head_not (p : Char → Bool) (l : List Char) (c : Char) (cs : List Char)
    (h : l.dropWhile p = c :: cs) : p c = false := by
  have h' := List.head?_dropWhile_not p l
  rw [h] at h'
  simpa using h'

/-- `dropWhile` removes a prefix. -/
theorem dropWhile_prefix_append (p : Char → Bool) (l : List Char) :
    ∃ pre, pre ++ l.dropWhile p = l := by
  induction l with
  | nil => exact ⟨[], rfl⟩
  | cons a l ih =>
    rw [List.dropWhile_cons]
    split
    · obtain ⟨pre, hpre⟩ := ih
      exact ⟨a :: pre, by simp [hpre]⟩
    · exact ⟨[], rfl⟩

/-- A non-empty stripped string starts with a non-whitespace character. -/
theorem pyStrip_head (s : PyStr) (c : Char) (cs : PyStr) (h : pyStrip s = c :: cs) :
    c.isWhitespace = false := by
  unfold pyStrip at h
  have h2 : ((s.dropWhile Char.isWhitespace).reverse.dropWhile Char.isWhitespace).getLast?
      = some c := by
    rw [← List.head?_reverse, h]
    rfl
  obtain ⟨pre, hpre⟩ := dropWhile_prefix_append Char.isWhitespace
      (s.dropWhile Char.isWhitespace).reverse
  have h3 : (s.dropWhile Char.isWhitespace).reverse.getLast? = some c := by
    rw [← hpre, List.getLast?_append, h2]
    rfl
  have h4 : (s.dropWhile Char.isWhitespace).head? = some c := by
    rw [← List.getLast?_reverse]
    exact h3
  rcases hw : s.dropWhile Char.isWhitespace with _ | ⟨a, t⟩
  · rw [hw] at h4; cases h4
  · rw [hw] at h4
    have ha : a = c := by simpa using h4
    subst ha
    exact dropWhile_head_not Char.isWhitespace s a t hw

/-- A non-empty stripped string ends with a non-whitespace character. -/
theorem pyStrip_last (s : PyStr) (d : Char) (h : (pyStrip s).getLast? = some d) :
    d.isWhitespace = false := by
  unfold pyStrip at h
  rw [List.getLast?_reverse] at h
  rcases hw : (s.dropWhile Char.isWhitespace).reverse.dropWhile Char.isWhitespace
      with _ | ⟨a, t⟩
  · rw [hw] at h; cases h
  · rw [hw] at h
    have ha : a = d := by simpa using h
    subst ha
    exact dropWhile_head_not Char.isWhitespace
      (s.dropWhile Char.isWhitespace).reverse a t hw

/-- `dropWhile` is the identity when the head fails the predicate. -/
theorem dropWhile_eq_self_of_head? (p : Char → Bool) (l : List Char)
    (h : ∀ c, l.head? = some c → p c = false) : l.dropWhile p = l := by
  cases l with
  | nil => rfl
  | cons a l => simp [List.dropWhile_cons, h a rfl]

/-- Stripping is the identity on strings whose two boundary characters
are not whitespace. -/
theorem pyStrip_eq_self_of (s : PyStr)
    (hh : ∀ c, s.head? = some c → c.isWhitespace = false)
    (hl : ∀ c, s.getLast? = some c → c.isWhitespace = false) :
    pyStrip s = s := by
  have h2 : s.reverse.dropWhile Char.isWhitespace = s.reverse :=
    dropWhile_eq_self_of_head? _ _
      (fun c hc => hl c (by rwa [List.head?_reverse] at hc))
  unfold pyStrip
  rw [dropWhile_eq_self_of_head? _ _ hh, h2, List.reverse_reverse]

/-- Stripping ignores a leading whitespace character. -/
theorem pyStrip_cons_ws (c : Char) (s : PyStr) (h : c.isWhitespace = true) :
    pyStrip (c :: s) = pyStrip s := by
  unfold pyStrip
  rw [List.dropWhile_cons, if_pos h]

/-- A string equal to its own strip does not start with whitespace, so
a further `dropWhile` is the identity. -/
theorem dropWhile_eq_self_of_pyStrip (t : PyStr) (h : pyStrip t = t) :
    t.dropWhile Char.isWhitespace = t := by
  apply dropWhile_eq_self_of_head?
  intro c hc
  cases t with
  | nil => cases hc
  | cons a u =>
    have ha : a = c := by simpa using hc
    subst ha
    exact pyStrip_head (a :: u) a u h

/-- `takeWhile`/`dropWhile` on an all-satisfying prefix followed by a
failing element. -/
theorem span_all_then_stop (p : Char → Bool) (l1 : List Char) (a : Char) (l2 : List Char)
    (h1 : ∀ c ∈ l1, p c = true) (h2 : p a = false) :
    (l1 ++ a :: l2).takeWhile p = l1 ∧ (l1 ++ a :: l2).dropWhile p = a :: l2 := by
  induction l1 with
  | nil =>
    constructor
    · simp [List.takeWhile_cons, h2]
    · simp [List.dropWhile_cons, h2]
  | cons b l1 ih =>
    obtain ⟨ih1, ih2⟩ := ih fun c hc => h1 c (List.mem_cons_of_mem _ hc)
    have hb : p b = true := h1 b (List.mem_cons_self _ _)
    constructor
    · simp [List.takeWhile_cons, hb, ih1]
    · simp [List.dropWhile_cons, hb, ih2]

/-! ### Numbered lines and their parse -/

/-- A numbered line is non-empty. -/
theorem numberLine_ne_nil (i : Nat) (t : PyStr) : numberLine i t ≠ [] := by
  unfold numberLine
  simp

/-- A numbered line starts with a digit, hence not with whitespace. -/
theorem numberLine_head? (i : Nat) (t : PyStr) :
    ∃ c, (numberLine i t).head? = some c ∧ c.isWhitespace = false := by
  unfold numberLine
  rcases hr : (Nat.repr i).data with _ | ⟨c0, cs0⟩
  · exact absurd hr (natRepr_spec i).1
  · exact ⟨c0, rfl, ((natRepr_spec i).2 c0 (by rw [hr]; exact List.mem_cons_self _ _)).2⟩

/-- A numbered line for a non-empty unit ends with the unit's last
character. -/
theorem numberLine_getLast? (i : Nat) (t : PyStr) (hne : t ≠ []) :
    (numberLine i t).getLast? = t.getLast? := by
  unfold numberLine
  rw [List.getLast?_append]
  have h2 : (')' :: ' ' :: t).getLast? = t.getLast? := by
    rw [show ')' :: ' ' :: t = [')', ' '] ++ t from rfl, List.getLast?_append]
    cases htl : t.getLast? with
    | none => exact absurd (List.getLast?_eq_none_iff.mp htl) hne
    | some d => rfl
  rw [h2]
  cases htl : t.getLast? with
  | none => exact absurd (List.getLast?_eq_none_iff.mp htl) hne
  | some d => rfl

/-- Stripping a numbered line of a trimmed non-empty unit changes
nothing. -/
theorem pyStrip_numberLine (i : Nat) (t : PyStr) (ht : pyStrip t = t) (hne : t ≠ []) :
    pyStrip (numberLine i t) = numberLine i t := by
  apply pyStrip_eq_self_of
  · intro c hc
    obtain ⟨c0, hc0, hw⟩ := numberLine_head? i t
    rw [hc0] at hc
    injection hc with hcc
    subst hcc
    exact hw
  · intro d hd
    rw [numberLine_getLast? i t hne] at hd
    exact pyStrip_last t d (by rw [ht]; exact hd)

/-- The numbered-line pattern matches `"{i}) {t}"` and captures exactly
the trimmed unit `t`. -/
theorem matchNumbered_numberLine (i : Nat) (t : PyStr) (ht : pyStrip t = t) :
    matchNumbered (numberLine i t) = some t := by
  obtain ⟨c0, cs0, hr⟩ : ∃ c0 cs0, (Nat.repr i).data = c0 :: cs0 := by
    rcases hr : (Nat.repr i).data with _ | ⟨c0, cs0⟩
    · exact absurd hr (natRepr_spec i).1
    · exact ⟨c0, cs0, rfl⟩
  have hdig : ∀ c ∈ (Nat.repr i).data, Char.isDigit c = true :=
    fun c hc => ((natRepr_spec i).2 c hc).1
  obtain ⟨h1, h2⟩ := span_all_then_stop Char.isDigit (Nat.repr i).data ')' (' ' :: t)
    hdig (by decide)
  unfold matchNumbered numberLine
  rw [List.span_eq_take_drop, h1, h2, hr]
  show some ((' ' :: t).dropWhile Char.isWhitespace) = some t
  rw [List.dropWhile_cons, if_pos (by decide), dropWhile_eq_self_of_pyStrip t ht]

/-- Running the response parser over consecutively numbered lines of
trimmed non-empty units flushes the pending text and then emits exactly
those units, in order. -/
theorem parseLoop_numberLines (ts : List PyStr)
    (hts : ∀ t ∈ ts, pyStrip t = t ∧ t ≠ []) :
    ∀ (i : Nat) (acc : List PyStr) (cur : PyStr), pyStrip cur = cur →
      parseLoop (numberLines i ts) acc cur
        = (if cur ≠ [] then acc ++ [cur] else acc) ++ ts := by
  induction ts with
  | nil =>
    intro i acc cur hcur
    show parseLoop [] acc cur = _
    rw [parseLoop, hcur]
    simp
  | cons t ts ih =>
    intro i acc cur hcur
    obtain ⟨ht1, ht2⟩ := hts t (List.mem_cons_self _ _)
    show parseLoop (numberLine i t :: numberLines (i + 1) ts) acc cur = _
    rw [parseLoop]
    simp only [pyStrip_numberLine i t ht1 ht2, if_neg (numberLine_ne_nil i t),
      matchNumbered_numberLine i t ht1, hcur]
    rw [ih (fun u hu => hts u (List.mem_cons_of_mem _ hu)) (i + 1) _ t ht1,
      if_pos ht2]
    split <;> simp

/-! ### Joining and re-splitting the response -/

/-- The head of a joined list is the head of its first part. -/
theorem joinWith_head? (sep : Char) (l : PyStr) (ls : List PyStr) (hne : l ≠ []) :
    (joinWith sep (l :: ls)).head? = l.head? := by
  cases ls with
  | nil => rfl
  | cons l2 ls2 =>
    show (l ++ sep :: joinWith sep (l2 :: ls2)).head? = l.head?
    cases l with
    | nil => exact absurd rfl hne
    | cons a u => rfl

/-- The last character of a joined list of non-empty parts is the last
character of one of the parts. -/
theorem joinWith_getLast? (sep : Char) (l : PyStr) (ls : List PyStr) :
    (∀ u ∈ l :: ls, u ≠ []) →
      ∃ d, (joinWith sep (l :: ls)).getLast? = some d
        ∧ ∃ u, u ∈ l :: ls ∧ u.getLast? = some d := by
  induction ls generalizing l with
  | nil =>
    intro h
    have hl : l ≠ [] := h l (List.mem_cons_self _ _)
    cases hgl : l.getLast? with
    | none => exact absurd (List.getLast?_eq_none_iff.mp hgl) hl
    | some d => exact ⟨d, hgl, l, List.mem_cons_self _ _, hgl⟩
  | cons l2 ls2 ih =>
    intro h
    obtain ⟨d, hd, u, hu, hud⟩ := ih l2 fun v hv => h v (List.mem_cons_of_mem _ hv)
    refine ⟨d, ?_, u, List.mem_cons_of_mem _ hu, hud⟩
    show (l ++ sep :: joinWith sep (l2 :: ls2)).getLast? = some d
    rw [List.getLast?_append,
      show sep :: joinWith sep (l2 :: ls2) = [sep] ++ joinWith sep (l2 :: ls2) from rfl,
      List.getLast?_append, hd]
    rfl

/-- Splitting the newline-joined parts on newlines recovers the parts,
when no part contains a newline. -/
theorem splitlines_joinWith (ls : List PyStr) (h : ∀ l ∈ ls, '\n' ∉ l) (hne : ls ≠ []) :
    splitlines (joinWith '\n' ls) = ls := by
  induction ls with
  | nil => exact absurd rfl hne
  | cons l ls2 ih =>
    cases ls2 with
    | nil =>
      show splitlines l = [l]
      simp only [splitlines, List.splitOn]
      apply List.splitOnP_eq_single
      intro x hx hxe
      rw [beq_iff_eq] at hxe
      subst hxe
      exact h l (List.mem_cons_self _ _) hx
    | cons l2 ls3 =>
      have hcl : ∀ x ∈ l, ¬((x == '\n') = true) := by
        intro x hx hxe
        rw [beq_iff_eq] at hxe
        subst hxe
        exact h l (List.mem_cons_self _ _) hx
      have hstep := List.splitOnP_first (fun x => x == '\n') l hcl '\n' (by simp)
        (joinWith '\n' (l2 :: ls3))
      show splitlines (l ++ '\n' :: joinWith '\n' (l2 :: ls3)) = l :: l2 :: ls3
      simp only [splitlines, List.splitOn] at ih ⊢
      rw [hstep, ih (fun u hu => h u (List.mem_cons_of_mem _ hu)) (List.cons_ne_nil _ _)]

/-- Every member of `numberLines i ts` is the numbered line of some
unit of `ts`. -/
theorem mem_numberLines (ts : List PyStr) :
    ∀ (i : Nat) (l : PyStr), l ∈ numberLines i ts → ∃ j t, t ∈ ts ∧ l = numberLine j t := by
  induction ts with
  | nil =>
    intro i l hl
    simp [numberLines] at hl
  | cons t ts ih =>
    intro i l hl
    rw [numberLines] at hl
    rcases List.mem_cons.mp hl with rfl | hl'
    · exact ⟨i, t, List.mem_cons_self _ _, rfl⟩
    · obtain ⟨j, u, hu, hju⟩ := ih (i + 1) l hl'
      exact ⟨j, u, List.mem_cons_of_mem _ hu, hju⟩

/-- A well-formed numbered response of trimmed non-empty units is
unchanged by the initial strip. -/
theorem pyStrip_numberedResponse (ts : List PyStr) (hne : ts ≠ [])
    (hts : ∀ t ∈ ts, pyStrip t = t ∧ t ≠ []) :
    pyStrip (numberedResponse ts) = numberedResponse ts := by
  cases ts with
  | nil => exact absurd rfl hne
  | cons t0 ts0 =>
    apply pyStrip_eq_self_of
    · intro c hc
      unfold numberedResponse at hc
      rw [show numberLines 1 (t0 :: ts0) = numberLine 1 t0 :: numberLines 2 ts0 from rfl,
        joinWith_head? '\n' _ _ (numberLine_ne_nil 1 t0)] at hc
      obtain ⟨c0, hc0, hw⟩ := numberLine_head? 1 t0
      rw [hc0] at hc
      injection hc with hcc
      subst hcc
      exact hw
    · intro d hd
      unfold numberedResponse at hd
      rw [show numberLines 1 (t0 :: ts0) = numberLine 1 t0 :: numberLines 2 ts0 from rfl]
        at hd
      have hvne : ∀ v ∈ numberLine 1 t0 :: numberLines 2 ts0, v ≠ [] := by
        intro v hv
        rcases List.mem_cons.mp hv with rfl | hv'
        · exact numberLine_ne_nil 1 t0
        · obtain ⟨j, t, _, rfl⟩ := mem_numberLines ts0 2 v hv'
          exact numberLine_ne_nil j t
      obtain ⟨d', hd', u, hu, hud⟩ := joinWith_getLast? '\n' (numberLine 1 t0)
        (numberLines 2 ts0) hvne
      rw [hd'] at hd
      injection hd with hdd
      subst hdd
      have hu' : ∃ j t, t ∈ t0 :: ts0 ∧ u = numberLine j t := by
        rcases List.mem_cons.mp hu with rfl | humem
        · exact ⟨1, t0, List.mem_cons_self _ _, rfl⟩
        · obtain ⟨j, t, htmem, rfl⟩ := mem_numberLines ts0 2 u humem
          exact ⟨j, t, List.mem_cons_of_mem _ htmem, rfl⟩
      obtain ⟨j, t, htmem, rfl⟩ := hu'
      obtain ⟨htt1, htt2⟩ := hts t htmem
      rw [numberLine_getLast? j t htt2] at hud
      exact pyStrip_last t _ (by rw [htt1]; exact hud)

/-- Unfolding `translate_chunk_openai` on a returned response. -/
theorem translate_chunk_openai_some (chunk : List PyStr) (raw : PyStr) (h : chunk ≠ []) :
    translate_chunk_openai chunk (some raw)
      = (parseLoop (splitlines (pyStrip raw)) [] []
          ++ List.replicate
              (chunk.length - (parseLoop (splitlines (pyStrip raw)) [] []).length)
              parseFailSentinel).take chunk.length := by
  unfold translate_chunk_openai
  rw [if_neg h]

/-- **C2.**  The response parser starts a new translation at every line
of the form "digits, `)`, optional space, rest", appends non-matching
non-empty lines to the pending translation, and flushes the pending
translation at end of input (this loop is `parseLoop`, the embedding of
the code's `for line in lines`); in particular, for a batch serialized
as `"1) t1" … "k) tk"` and a backend response consisting of exactly `k`
such numbered lines of trimmed, non-empty, newline-free translations,
the batch translator returns those `k` translations in numbering
order. -/
theorem translate_chunk_openai_numbered_roundtrip (chunk ts : List PyStr)
    (hlen : chunk.length = ts.length)
    (hts : ∀ t ∈ ts, pyStrip t = t ∧ t ≠ [] ∧ '\n' ∉ t) :
    translate_chunk_openai chunk (some (numberedResponse ts)) = ts := by
  cases ts with
  | nil =>
    have h0 : chunk = [] := List.length_eq_zero.mp hlen
    subst h0
    rfl
  | cons t0 ts0 =>
    have hchunk : chunk ≠ [] := by
      intro h0
      rw [h0] at hlen
      simp at hlen
    have hts' : ∀ t ∈ t0 :: ts0, pyStrip t = t ∧ t ≠ [] :=
      fun t ht => ⟨(hts t ht).1, (hts t ht).2.1⟩
    have hnonl : ∀ l ∈ numberLines 1 (t0 :: ts0), '\n' ∉ l := by
      intro l hl hmem
      obtain ⟨j, t, htm, rfl⟩ := mem_numberLines (t0 :: ts0) 1 l hl
      unfold numberLine at hmem
      rcases List.mem_append.mp hmem with hd | hrest
      · have := ((natRepr_spec j).2 _ hd).2
        simp at this
      · rcases List.mem_cons.mp hrest with h1 | hrest2
        · exact absurd h1 (by decide)
        · rcases List.mem_cons.mp hrest2 with h2 | h3
          · exact absurd h2 (by decide)
          · exact (hts t htm).2.2 h3
    rw [translate_chunk_openai_some chunk _ hchunk,
      pyStrip_numberedResponse _ (List.cons_ne_nil _ _) hts',
      show numberedResponse (t0 :: ts0) = joinWith '\n' (numberLines 1 (t0 :: ts0)) from rfl,
      splitlines_joinWith _ hnonl
        (by
          rw [show numberLines 1 (t0 :: ts0) = numberLine 1 t0 :: numberLines 2 ts0 from rfl]
          exact List.cons_ne_nil _ _),
      parseLoop_numberLines (t0 :: ts0) hts' 1 [] [] rfl]
    simp [hlen]

/-- Witness for C2: a two-unit batch with its well-formed numbered
response round-trips. -/
theorem translate_chunk_openai_numbered_roundtrip_witness :
    translate_chunk_openai ["Hello.".data, "World.".data]
        (some (numberedResponse ["Привіт.".data, "Світ.".data]))
      = ["Привіт.".data, "Світ.".data] :=
  translate_chunk_openai_numbered_roundtrip _ _ (by decide) (by decide)

/-! ### The zero-numbered-entries fallback -/

/-- When no line matches the numbered pattern, the parser accumulates
everything into one pending translation and flushes it (if anything
non-empty was seen) at end of input. -/
theorem parseLoop_no_match (lines : List PyStr)
    (h : ∀ l ∈ lines, matchNumbered (pyStrip l) = none) :
    ∀ (acc : List PyStr) (cur : PyStr),
      parseLoop lines acc cur =
        if cur ++ glueLines lines ≠ [] then acc ++ [pyStrip (cur ++ glueLines lines)]
        else acc := by
  induction lines with
  | nil =>
    intro acc cur
    show parseLoop [] acc cur = _
    rw [parseLoop]
    simp [glueLines]
  | cons l rest ih =>
    intro acc cur
    have hrest : ∀ u ∈ rest, matchNumbered (pyStrip u) = none :=
      fun u hu => h u (List.mem_cons_of_mem _ hu)
    have hg : glueLines (l :: rest)
        = if (pyStrip l).isEmpty then glueLines rest
          else ' ' :: pyStrip l ++ glueLines rest := rfl
    show parseLoop (l :: rest) acc cur = _
    rw [parseLoop]
    by_cases hl : pyStrip l = []
    · rw [if_pos hl, ih hrest, hg, if_pos (List.isEmpty_iff.mpr hl)]
    · rw [if_neg hl, h l (List.mem_cons_self _ _), ih hrest, hg,
        if_neg (fun hx => hl (List.isEmpty_iff.mp hx)),
        List.append_assoc, List.cons_append]

/-- The parser's accumulated text is the space-glued list of non-empty
stripped fragments. -/
theorem glueLines_eq_glueC (lines : List PyStr) :
    glueLines lines = glueC ((lines.map pyStrip).filter fun l => !l.isEmpty) := by
  induction lines with
  | nil => rfl
  | cons l rest ih =>
    show (if (pyStrip l).isEmpty then glueLines rest
        else ' ' :: pyStrip l ++ glueLines rest) = _
    by_cases hl : (pyStrip l).isEmpty
    · rw [if_pos hl, ih]
      simp [List.filter_cons, hl]
    · rw [if_neg hl, ih]
      simp only [List.map_cons, List.filter_cons, Bool.not_eq_true']
      rw [if_pos]
      · rfl
      · simp_all

/-- Gluing non-empty fragments is a leading space followed by the
space-join. -/
theorem glueC_cons_eq (cs : List PyStr) (hne : cs ≠ []) :
    glueC cs = ' ' :: joinWith ' ' cs := by
  induction cs with
  | nil => exact absurd rfl hne
  | cons s cs2 ih =>
    cases cs2 with
    | nil =>
      show ' ' :: s ++ [] = ' ' :: s
      simp
    | cons s2 cs3 =>
      show ' ' :: s ++ glueC (s2 :: cs3) = ' ' :: (s ++ ' ' :: joinWith ' ' (s2 :: cs3))
      rw [ih (List.cons_ne_nil _ _)]
      simp

/-- Every content fragment is a non-empty strip of some line. -/
theorem contentLines_mem (raw : PyStr) :
    ∀ s ∈ contentLines raw, ∃ x, s = pyStrip x ∧ s ≠ [] := by
  intro s hs
  unfold contentLines at hs
  obtain ⟨hmem, hempty⟩ := List.mem_filter.mp hs
  obtain ⟨x, _, rfl⟩ := List.mem_map.mp hmem
  refine ⟨x, rfl, ?_⟩
  simpa using hempty

/-- The space-join of non-empty stripped fragments is itself
stripped. -/
theorem pyStrip_joinWith_content (cs : List PyStr)
    (hcs : ∀ s ∈ cs, ∃ x, s = pyStrip x ∧ s ≠ []) (hne : cs ≠ []) :
    pyStrip (joinWith ' ' cs) = joinWith ' ' cs := by
  cases cs with
  | nil => exact absurd rfl hne
  | cons s cs2 =>
    have hne' : ∀ u ∈ s :: cs2, u ≠ [] := by
      intro u hu
      obtain ⟨x, _, h2⟩ := hcs u hu
      exact h2
    apply pyStrip_eq_self_of
    · intro c hc
      obtain ⟨x, hx, hsne⟩ := hcs s (List.mem_cons_self _ _)
      rw [joinWith_head? ' ' s cs2 hsne] at hc
      cases hs : s with
      | nil => rw [hs] at hc; cases hc
      | cons a u =>
        rw [hs] at hc
        injection hc with hac
        subst hac
        rw [hs] at hx
        exact pyStrip_head x a u hx.symm
    · intro d hd
      obtain ⟨d', hd', u, hu, hud⟩ := joinWith_getLast? ' ' s cs2 hne'
      rw [hd'] at hd
      injection hd with hdd
      subst hdd
      obtain ⟨x, hx, _⟩ := hcs u hu
      rw [hx] at hud
      exact pyStrip_last x _ hud

/-- **C3, counterexample.**  A whitespace-only backend response is
non-empty and contains no numbered line, yet the batch translator fills
every slot — the first included — with the parse-failure sentinel,
not with the raw response treated as a single translation. -/
theorem translate_chunk_openai_blank_counterexample :
    " ".data ≠ ([] : PyStr)
    ∧ (∀ l ∈ splitlines (pyStrip " ".data), matchNumbered (pyStrip l) = none)
    ∧ translate_chunk_openai ["Hello.".data, "World.".data] (some " ".data)
        = [parseFailSentinel, parseFailSentinel]
    ∧ parseFailSentinel ≠ " ".data ∧ parseFailSentinel ≠ pyStrip " ".data := by
  decide

/-- **C3, amended.**  If the response contains no numbered line but
does contain at least one non-empty line, the batch translator returns
a list of the expected length whose first element is the whole response
as one translation — its non-empty stripped lines joined by single
spaces (the raw text itself when the response is one trimmed line) —
and whose remaining elements are the parse-failure sentinel.
(A non-empty but whitespace-only response instead yields the sentinel
in every slot.) -/
theorem translate_chunk_openai_no_numbering (chunk : List PyStr) (raw : PyStr)
    (hchunk : chunk ≠ [])
    (hmatch : ∀ l ∈ splitlines (pyStrip raw), matchNumbered (pyStrip l) = none)
    (hcontent : contentLines raw ≠ []) :
    translate_chunk_openai chunk (some raw)
      = joinWith ' ' (contentLines raw)
          :: List.replicate (chunk.length - 1) parseFailSentinel := by
  have hcl : contentLines raw
      = ((splitlines (pyStrip raw)).map pyStrip).filter fun l => !l.isEmpty := rfl
  have hparse : parseLoop (splitlines (pyStrip raw)) [] []
      = [joinWith ' ' (contentLines raw)] := by
    rw [parseLoop_no_match _ hmatch [] [], List.nil_append, glueLines_eq_glueC, ← hcl,
      glueC_cons_eq _ hcontent, if_pos (List.cons_ne_nil _ _),
      pyStrip_cons_ws ' ' _ (by decide),
      pyStrip_joinWith_content _ (contentLines_mem raw) hcontent, List.nil_append]
  have hn : 1 ≤ chunk.length := List.length_pos.mpr hchunk
  rw [translate_chunk_openai_some chunk raw hchunk, hparse, List.singleton_append]
  have hlen2 : (joinWith ' ' (contentLines raw)
      :: List.replicate (chunk.length - [joinWith ' ' (contentLines raw)].length)
          parseFailSentinel).length ≤ chunk.length := by
    simp only [List.length_cons, List.length_replicate, List.length_nil]
    omega
  rw [List.take_of_length_le hlen2]
  simp

/-- Witness for C3 (amended) at a three-unit batch and an unnumbered
two-line response. -/
theorem translate_chunk_openai_no_numbering_witness :
    translate_chunk_openai ["a".data, "b".data, "c".data] (some "Привіт\nСвіт".data)
      = ["Привіт Світ".data, parseFailSentinel, parseFailSentinel] := by
  have h := translate_chunk_openai_no_numbering ["a".data, "b".data, "c".data]
    "Привіт\nСвіт".data (by decide) (by decide) (by decide)
  rw [h]
  decide

end LTUA
